import Mathlib

/-! Shallow embedding of `src/library_system.cpp`: a library catalog with a
chained hash table indexed by book id, a binary search tree indexed by book
title, and a `LibraryManager` facade that owns all `Book` records and keeps
the two indexes consistent.  Machine `int` is modelled as `Int`; the C++ `%`
operator (truncating toward zero) is `Int.tmod`; out-of-bounds array accesses
are modelled by `Option` (`none` = undefined behaviour); every `cout`
statement of the original program is recorded as an abstract output event. -/

/-- Lexicographic order on strings, as used by the C++ `<` on `std::string`
for the `Book::title` comparisons in `BST::insertRecursive` and
`BST::searchRecursive`. -/
def strLt (a b : String) : Prop := a.data < b.data

instance (a b : String) : Decidable (strLt a b) :=
  inferInstanceAs (Decidable (a.data < b.data))

/-- The `struct Book`: id, title, author and an availability flag. -/
structure Book where
  id : Int
  title : String
  author : String
  isAvailable : Bool
deriving DecidableEq

/-- The constructor `Book(int, string, string)`: the three identity fields are
taken from the arguments and `isAvailable` is initialised to `true`. -/
def Book.make (id : Int) (title author : String) : Book :=
  { id := id, title := title, author := author, isAvailable := true }

/-- One `cout` statement of the original program, as an abstract event. -/
inductive OutputEvent where
  | added (title : String)
  | errorDuplicate (id : Int)
  | foundByIdHeader
  | notFoundId (id : Int)
  | foundByTitleHeader
  | notFoundTitle (title : String)
  | bookDetails (book : Book)
  | noBooks
  | catalogHeader
  | catalogFooter
deriving DecidableEq

/-- `Book::printDetails`: prints one line with the book's fields. -/
def Book.printDetails (b : Book) : List OutputEvent := [.bookDetails b]

/-- The `class HashTable`: `TABLE_SIZE` chained buckets of book references,
modelled as a list of buckets (length 101 in every reachable state). -/
structure HashTable where
  table : List (List Book)
deriving DecidableEq

/-- `HashTable::TABLE_SIZE = 101`. -/
def HashTable.TABLE_SIZE : Nat := 101

/-- `HashTable::hashFunction`: `key % TABLE_SIZE` with the C++ `%`, which
truncates toward zero (negative for negative non-multiples of 101). -/
def HashTable.hashFunction (key : Int) : Int := Int.tmod key 101

/-- `HashTable::insert`: append the book to bucket `hashFunction(book->id)`.
`none` models the out-of-bounds array access performed when the computed
index does not address a valid bucket. -/
def HashTable.insert (h : HashTable) (book : Book) : Option HashTable :=
  let idx := HashTable.hashFunction book.id
  if 0 ≤ idx ∧ idx.toNat < h.table.length then
    some ⟨h.table.set idx.toNat (h.table.getD idx.toNat [] ++ [book])⟩
  else
    none

/-- `HashTable::search`: scan bucket `hashFunction(id)` and return the first
book with the requested id.  The outer `none` models an out-of-bounds bucket
access; the inner option is the returned pointer (`none` = `nullptr`). -/
def HashTable.search (h : HashTable) (id : Int) : Option (Option Book) :=
  let idx := HashTable.hashFunction id
  if 0 ≤ idx ∧ idx.toNat < h.table.length then
    some ((h.table.getD idx.toNat []).find? (fun b => b.id == id))
  else
    none

/-- The `BSTNode` tree shape: each node holds one book reference. -/
inductive BST where
  | nil : BST
  | node (book : Book) (left right : BST) : BST
deriving DecidableEq

/-- `BST::insertRecursive`: descend left on strictly smaller title, right on
strictly greater title; a book whose title is already present is silently
discarded (the node is returned unchanged). -/
def BST.insertRecursive : BST → Book → BST
  | .nil, book => .node book .nil .nil
  | .node bk l r, book =>
    if strLt book.title bk.title then .node bk (BST.insertRecursive l book) r
    else if strLt bk.title book.title then .node bk l (BST.insertRecursive r book)
    else .node bk l r

/-- `BST::insert`: insert at the root. -/
def BST.insert (t : BST) (book : Book) : BST := BST.insertRecursive t book

/-- `BST::searchRecursive`: test equality first, then descend by order. -/
def BST.searchRecursive : BST → String → Option Book
  | .nil, _ => none
  | .node bk l r, title =>
    if bk.title = title then some bk
    else if strLt title bk.title then BST.searchRecursive l title
    else BST.searchRecursive r title

/-- `BST::search`: search from the root. -/
def BST.search (t : BST) (title : String) : Option Book := BST.searchRecursive t title

/-- The in-order sequence of books referenced by the tree: this is exactly the
order in which `BST::inorderPrint` visits them. -/
def BST.inorder : BST → List Book
  | .nil => []
  | .node bk l r => BST.inorder l ++ bk :: BST.inorder r

/-- `BST::inorderPrint`: print every referenced book's details in order. -/
def BST.inorderPrint : BST → List OutputEvent
  | .nil => []
  | .node bk l r => BST.inorderPrint l ++ bk.printDetails ++ BST.inorderPrint r

/-- `BST::printAll`: an empty tree prints the "No books" message, otherwise
the whole tree is printed in order. -/
def BST.printAll : BST → List OutputEvent
  | .nil => [.noBooks]
  | .node bk l r => BST.inorderPrint (.node bk l r)

/-- The titles referenced by the tree, in order. -/
def BST.titles (t : BST) : List String := t.inorder.map (·.title)

/-- The `class LibraryManager`: the owning master storage `books` plus the
two non-owning indexes. -/
structure LibraryManager where
  books : List Book
  idIndex : HashTable
  titleIndex : BST
deriving DecidableEq

/-- A freshly constructed `LibraryManager`: empty storage, 101 empty hash
buckets, empty tree. -/
def LibraryManager.init : LibraryManager :=
  { books := [], idIndex := ⟨List.replicate 101 []⟩, titleIndex := .nil }

/-- `LibraryManager::addBook`: if the id is already indexed, print the
duplicate-id error and change nothing; otherwise construct the book, append
it to the owned storage, insert it into both indexes and print "Added". -/
def LibraryManager.addBook (m : LibraryManager) (id : Int) (title author : String) :
    Option (LibraryManager × List OutputEvent) :=
  match HashTable.search m.idIndex id with
  | none => none
  | some (some _) => some (m, [.errorDuplicate id])
  | some none =>
    match HashTable.insert m.idIndex (Book.make id title author) with
    | none => none
    | some h =>
      some ({ books := m.books ++ [Book.make id title author], idIndex := h,
              titleIndex := m.titleIndex.insert (Book.make id title author) },
            [.added title])

/-- `LibraryManager::searchById`: look the id up in the hash index and print
either the found book's details or a not-found message. -/
def LibraryManager.searchById (m : LibraryManager) (id : Int) :
    Option (LibraryManager × List OutputEvent) :=
  match HashTable.search m.idIndex id with
  | none => none
  | some (some b) => some (m, .foundByIdHeader :: b.printDetails)
  | some none => some (m, [.notFoundId id])

/-- `LibraryManager::searchByTitle`: look the title up in the tree index and
print either the found book's details or a not-found message. -/
def LibraryManager.searchByTitle (m : LibraryManager) (title : String) :
    LibraryManager × List OutputEvent :=
  match BST.search m.titleIndex title with
  | some b => (m, .foundByTitleHeader :: b.printDetails)
  | none => (m, [.notFoundTitle title])

/-- `LibraryManager::showAllBooks`: header, the tree's `printAll`, footer. -/
def LibraryManager.showAllBooks (m : LibraryManager) :
    LibraryManager × List OutputEvent :=
  (m, .catalogHeader :: (m.titleIndex.printAll ++ [.catalogFooter]))

/-- The spec-level operation `findByKey`: the result of the hash lookup
performed by `LibraryManager::searchById` (outer `none` = out-of-bounds
access, inner option = the returned record view). -/
def LibraryManager.findByKey (m : LibraryManager) (id : Int) : Option (Option Book) :=
  HashTable.search m.idIndex id

/-- The spec-level operation `findByTitle`: the result of the tree lookup
performed by `LibraryManager::searchByTitle`. -/
def LibraryManager.findByTitle (m : LibraryManager) (title : String) : Option Book :=
  BST.search m.titleIndex title

/-- The spec-level operation `listAllSortedByTitle`: the sequence of record
views produced by the in-order traversal of the title index. -/
def LibraryManager.listAllSortedByTitle (m : LibraryManager) : List Book :=
  m.titleIndex.inorder

/-- Run a sequence of `addBook` calls from a given state. -/
def runAddsFrom (m : LibraryManager) : List (Int × String × String) → Option LibraryManager
  | [] => some m
  | (id, title, author) :: rest =>
    match m.addBook id title author with
    | none => none
    | some (m', _) => runAddsFrom m' rest

/-- Run a sequence of `addBook` calls on a freshly constructed manager. -/
def runAdds (ops : List (Int × String × String)) : Option LibraryManager :=
  runAddsFrom LibraryManager.init ops

/-- The search-tree invariant of the title index: at every node, all titles in
the left subtree are strictly smaller and all titles in the right subtree are
strictly greater. -/
def BST.SearchTree : BST → Prop
  | .nil => True
  | .node bk l r =>
      (∀ s ∈ l.titles, strLt s bk.title) ∧ (∀ s ∈ r.titles, strLt bk.title s) ∧
        l.SearchTree ∧ r.SearchTree

/-- Invariant of every `LibraryManager` state reachable by `addBook` calls:
the table has its 101 buckets; every owned book is available; ids are unique;
every owned book hashes to a valid bucket and sits exactly once in exactly
that bucket; the title index is a search tree whose nodes are exactly the
first owned book of each owned title. -/
structure CatalogInv (m : LibraryManager) : Prop where
  table_len : m.idIndex.table.length = 101
  avail : ∀ b ∈ m.books, b.isAvailable = true
  ids_nodup : (m.books.map (fun b => b.id)).Nodup
  hash_ok : ∀ b ∈ m.books, 0 ≤ HashTable.hashFunction b.id ∧
    (HashTable.hashFunction b.id).toNat < 101
  buckets : ∀ i < 101, ∀ b : Book, (m.idIndex.table.getD i []).count b =
    if b ∈ m.books ∧ (HashTable.hashFunction b.id).toNat = i then 1 else 0
  tree_st : m.titleIndex.SearchTree
  tree_first : ∀ bk ∈ m.titleIndex.inorder,
    m.books.find? (fun b => b.title == bk.title) = some bk
  tree_complete : ∀ b ∈ m.books, b.title ∈ m.titleIndex.titles

/-- A three-book catalog built by running the concrete scenario of the spec:
keys 1001, 1002, 1003 with titles "Zed", "Abe", "Mid". -/
def sampleOps : List (Int × String × String) :=
  [(1001, "Zed", "A"), (1002, "Abe", "B"), (1003, "Mid", "C")]

/-- The state reached by running `sampleOps` on a fresh manager. -/
def sampleCatalog : LibraryManager := (runAdds sampleOps).getD LibraryManager.init

/-! Basic facts about the string order used by the tree. -/

theorem strLt_irrefl (a : String) : ¬ strLt a a := lt_irrefl _

theorem strLt_trans {a b c : String} (h1 : strLt a b) (h2 : strLt b c) : strLt a c :=
  lt_trans h1 h2

theorem strLt_asymm {a b : String} (h : strLt a b) : ¬ strLt b a :=
  fun h2 => strLt_irrefl a (strLt_trans h h2)

theorem strLt_eq_of_not {a b : String} (h1 : ¬ strLt a b) (h2 : ¬ strLt b a) : a = b := by
  rcases lt_trichotomy a.data b.data with h | h | h
  · exact absurd h h1
  · exact String.ext h
  · exact absurd h h2

theorem strLt_ne {a b : String} (h : strLt a b) : a ≠ b := by
  intro he; subst he; exact strLt_irrefl a h

/-! List helpers: `find?` with a uniqueness hypothesis, `getD` after `set`,
`getD` on a replicated list. -/

theorem find?_eq_some_unique {α : Type} {p : α → Bool} :
    ∀ {l : List α} {a : α}, a ∈ l → p a = true → (∀ x ∈ l, p x = true → x = a) →
      l.find? p = some a
  | [], a, ha, _, _ => absurd ha (List.not_mem_nil a)
  | b :: l, a, ha, hpa, hu => by
    by_cases hpb : p b = true
    · have hba : b = a := hu b (List.mem_cons_self b l) hpb
      subst hba
      simp [List.find?_cons_of_pos _ hpb]
    · have hne : a ≠ b := fun he => hpb (he ▸ hpa)
      have ha' : a ∈ l := by
        rcases List.mem_cons.mp ha with h | h
        · exact absurd h hne
        · exact h
      have hrec := find?_eq_some_unique ha' hpa
        (fun x hx hpx => hu x (List.mem_cons_of_mem b hx) hpx)
      simpa [List.find?_cons_of_neg _ (by simpa using hpb)] using hrec

theorem getD_set_self {α : Type} :
    ∀ (l : List α) (i : Nat) (x d : α), i < l.length → (l.set i x).getD i d = x
  | [], i, x, d, h => absurd h (by simp)
  | a :: l, 0, x, d, _ => rfl
  | a :: l, i + 1, x, d, h =>
    getD_set_self l i x d (by simpa using Nat.lt_of_succ_lt_succ h)

theorem getD_set_ne {α : Type} :
    ∀ (l : List α) (i j : Nat) (x d : α), i ≠ j → (l.set i x).getD j d = l.getD j d
  | [], _, _, _, _, _ => rfl
  | a :: l, 0, 0, x, d, h => absurd rfl h
  | a :: l, 0, j + 1, x, d, _ => rfl
  | a :: l, i + 1, 0, x, d, _ => rfl
  | a :: l, i + 1, j + 1, x, d, h =>
    getD_set_ne l i j x d (fun he => h (by rw [he]))

theorem getD_replicate {α : Type} :
    ∀ (n i : Nat) (a : α), (List.replicate n a).getD i a = a
  | 0, _, _ => rfl
  | _ + 1, 0, _ => rfl
  | n + 1, i + 1, a => getD_replicate n i a

/-! The binary-search-tree invariant and the behaviour of `insertRecursive`,
`searchRecursive` and the in-order traversal under it. -/

theorem BST.titles_nil : BST.nil.titles = [] := rfl

theorem BST.titles_node (bk : Book) (l r : BST) :
    (BST.node bk l r).titles = l.titles ++ bk.title :: r.titles := by
  simp [BST.titles, BST.inorder]

theorem BST.insertRecursive_node (bk : Book) (l r : BST) (b : Book) :
    BST.insertRecursive (.node bk l r) b =
      if strLt b.title bk.title then .node bk (l.insertRecursive b) r
      else if strLt bk.title b.title then .node bk l (r.insertRecursive b)
      else .node bk l r := rfl

theorem BST.mem_titles_insert :
    ∀ (t : BST) (b : Book) (s : String),
      s ∈ (t.insertRecursive b).titles ↔ s = b.title ∨ s ∈ t.titles
  | .nil, b, s => by simp [BST.insertRecursive, BST.titles_node, BST.titles_nil]
  | .node bk l r, b, s => by
    by_cases h1 : strLt b.title bk.title
    · simp only [BST.insertRecursive, if_pos h1, BST.titles_node, List.mem_append,
        List.mem_cons, BST.mem_titles_insert l b s]
      tauto
    · by_cases h2 : strLt bk.title b.title
      · simp only [BST.insertRecursive, if_neg h1, if_pos h2, BST.titles_node,
          List.mem_append, List.mem_cons, BST.mem_titles_insert r b s]
        tauto
      · have heq : bk.title = b.title := strLt_eq_of_not h2 h1
        simp only [BST.insertRecursive, if_neg h1, if_neg h2, BST.titles_node,
          List.mem_append, List.mem_cons]
        constructor
        · exact Or.inr
        · rintro (rfl | hs)
          · exact Or.inr (Or.inl heq.symm)
          · exact hs

theorem BST.searchTree_insert (b : Book) :
    ∀ {t : BST}, t.SearchTree → (t.insertRecursive b).SearchTree
  | .nil, _ =>
    ⟨fun s hs => absurd hs (by simp [BST.titles_nil]),
     fun s hs => absurd hs (by simp [BST.titles_nil]), trivial, trivial⟩
  | .node bk l r, ⟨hl, hr, hstl, hstr⟩ => by
    rw [BST.insertRecursive_node]
    by_cases h1 : strLt b.title bk.title
    · rw [if_pos h1]
      refine ⟨?_, hr, BST.searchTree_insert b hstl, hstr⟩
      intro s hs
      rcases (BST.mem_titles_insert l b s).mp hs with rfl | hs'
      · exact h1
      · exact hl s hs'
    · by_cases h2 : strLt bk.title b.title
      · rw [if_neg h1, if_pos h2]
        refine ⟨hl, ?_, hstl, BST.searchTree_insert b hstr⟩
        intro s hs
        rcases (BST.mem_titles_insert r b s).mp hs with rfl | hs'
        · exact h2
        · exact hr s hs'
      · rw [if_neg h1, if_neg h2]
        exact ⟨hl, hr, hstl, hstr⟩

theorem BST.insert_eq_of_mem (b : Book) :
    ∀ {t : BST}, t.SearchTree → b.title ∈ t.titles → t.insertRecursive b = t
  | .nil, _, hm => absurd hm (by simp [BST.titles_nil])
  | .node bk l r, ⟨hl, hr, hstl, hstr⟩, hm => by
    have hm' : b.title ∈ l.titles ∨ b.title = bk.title ∨ b.title ∈ r.titles := by
      simpa [BST.titles_node] using hm
    by_cases h1 : strLt b.title bk.title
    · have hml : b.title ∈ l.titles := by
        rcases hm' with h | h | h
        · exact h
        · exact absurd h1 (by rw [h]; exact strLt_irrefl _)
        · exact absurd h1 (strLt_asymm (hr _ h))
      simp [BST.insertRecursive, if_pos h1, BST.insert_eq_of_mem b hstl hml]
    · by_cases h2 : strLt bk.title b.title
      · have hmr : b.title ∈ r.titles := by
          rcases hm' with h | h | h
          · exact absurd h2 (strLt_asymm (hl _ h))
          · exact absurd h2 (by rw [h]; exact strLt_irrefl _)
          · exact h
        simp [BST.insertRecursive, if_neg h1, if_pos h2, BST.insert_eq_of_mem b hstr hmr]
      · simp [BST.insertRecursive, if_neg h1, if_neg h2]

theorem BST.insert_split (b : Book) :
    ∀ {t : BST}, b.title ∉ t.titles →
      ∃ l1 l2, t.inorder = l1 ++ l2 ∧ (t.insertRecursive b).inorder = l1 ++ b :: l2
  | .nil, _ => ⟨[], [], rfl, rfl⟩
  | .node bk l r, hm => by
    have hm' : ¬(b.title ∈ l.titles ∨ b.title = bk.title ∨ b.title ∈ r.titles) := by
      simpa [BST.titles_node] using hm
    push_neg at hm'
    obtain ⟨hml, hne, hmr⟩ := hm'
    by_cases h1 : strLt b.title bk.title
    · obtain ⟨l1, l2, he, he'⟩ := BST.insert_split b (t := l) hml
      refine ⟨l1, l2 ++ bk :: r.inorder, ?_, ?_⟩
      · simp [BST.inorder, he, List.append_assoc]
      · simp [BST.insertRecursive, if_pos h1, BST.inorder, he', List.append_assoc]
    · by_cases h2 : strLt bk.title b.title
      · obtain ⟨r1, r2, he, he'⟩ := BST.insert_split b (t := r) hmr
        refine ⟨l.inorder ++ bk :: r1, r2, ?_, ?_⟩
        · simp [BST.inorder, he, List.append_assoc]
        · simp [BST.insertRecursive, if_neg h1, if_pos h2, BST.inorder, he',
            List.append_assoc]
      · exact absurd (strLt_eq_of_not h2 h1).symm hne

theorem BST.pairwise_titles :
    ∀ {t : BST}, t.SearchTree → t.titles.Pairwise strLt
  | .nil, _ => by simp [BST.titles_nil]
  | .node bk l r, ⟨hl, hr, hstl, hstr⟩ => by
    have pl := BST.pairwise_titles hstl
    have pr := BST.pairwise_titles hstr
    rw [BST.titles_node, List.pairwise_append]
    refine ⟨pl, ?_, ?_⟩
    · rw [List.pairwise_cons]
      exact ⟨hr, pr⟩
    · intro a ha c hc
      rcases List.mem_cons.mp hc with rfl | hc'
      · exact hl a ha
      · exact strLt_trans (hl a ha) (hr c hc')

theorem BST.search_some :
    ∀ {t : BST} {s : String} {bk : Book},
      t.searchRecursive s = some bk → bk ∈ t.inorder ∧ bk.title = s
  | .nil, s, bk, h => by simp [BST.searchRecursive] at h
  | .node b l r, s, bk, h => by
    by_cases h1 : b.title = s
    · have hb : b = bk := by simpa [BST.searchRecursive, if_pos h1] using h
      subst hb
      exact ⟨by simp [BST.inorder], h1⟩
    · by_cases h2 : strLt s b.title
      · have hrec := BST.search_some (t := l) (s := s)
          (by simpa [BST.searchRecursive, h1, h2] using h)
        exact ⟨by simp [BST.inorder]; exact Or.inl hrec.1, hrec.2⟩
      · have hrec := BST.search_some (t := r) (s := s)
          (by simpa [BST.searchRecursive, h1, h2] using h)
        exact ⟨by simp [BST.inorder]; exact Or.inr (Or.inr hrec.1), hrec.2⟩

theorem BST.search_none_of_not_mem :
    ∀ {t : BST} {s : String}, s ∉ t.titles → t.searchRecursive s = none
  | .nil, _, _ => rfl
  | .node b l r, s, hm => by
    have hm' : ¬(s ∈ l.titles ∨ s = b.title ∨ s ∈ r.titles) := by
      simpa [BST.titles_node] using hm
    push_neg at hm'
    obtain ⟨hml, hne, hmr⟩ := hm'
    have h1 : ¬ b.title = s := fun h => hne h.symm
    by_cases h2 : strLt s b.title
    · simp [BST.searchRecursive, h1, h2, BST.search_none_of_not_mem hml]
    · simp [BST.searchRecursive, h1, h2, BST.search_none_of_not_mem hmr]

theorem BST.search_some_of_mem :
    ∀ {t : BST}, t.SearchTree → ∀ {s : String}, s ∈ t.titles →
      ∃ bk, t.searchRecursive s = some bk
  | .nil, _, s, hm => absurd hm (by simp [BST.titles_nil])
  | .node b l r, ⟨hl, hr, hstl, hstr⟩, s, hm => by
    by_cases h1 : b.title = s
    · exact ⟨b, by simp [BST.searchRecursive, if_pos h1]⟩
    · have hm' : s ∈ l.titles ∨ s = b.title ∨ s ∈ r.titles := by
        simpa [BST.titles_node] using hm
      rcases hm' with h | h | h
      · have h2 : strLt s b.title := hl s h
        obtain ⟨bk, hbk⟩ := BST.search_some_of_mem hstl h
        exact ⟨bk, by simp [BST.searchRecursive, h1, h2, hbk]⟩
      · exact absurd h.symm h1
      · have h2 : ¬ strLt s b.title := strLt_asymm (hr s h)
        obtain ⟨bk, hbk⟩ := BST.search_some_of_mem hstr h
        exact ⟨bk, by simp [BST.searchRecursive, h1, h2, hbk]⟩

/-! Unfolding lemmas for the hash-table operations. -/

theorem Book.make_id (id : Int) (title author : String) :
    (Book.make id title author).id = id := rfl

theorem Book.make_title (id : Int) (title author : String) :
    (Book.make id title author).title = title := rfl

theorem Book.make_author (id : Int) (title author : String) :
    (Book.make id title author).author = author := rfl

theorem Book.make_isAvailable (id : Int) (title author : String) :
    (Book.make id title author).isAvailable = true := rfl

theorem HashTable.search_eq_pos (h : HashTable) (id : Int)
    (h0 : 0 ≤ HashTable.hashFunction id)
    (hlt : (HashTable.hashFunction id).toNat < h.table.length) :
    HashTable.search h id =
      some ((h.table.getD (HashTable.hashFunction id).toNat []).find?
        (fun b => b.id == id)) := by
  simp only [HashTable.search]
  rw [if_pos ⟨h0, hlt⟩]

theorem HashTable.search_neg (h : HashTable) (id : Int)
    (h0 : HashTable.hashFunction id < 0) : HashTable.search h id = none := by
  simp only [HashTable.search]
  exact if_neg (fun hc => absurd hc.1 (not_le.mpr h0))

theorem HashTable.search_some_bounds {h : HashTable} {id : Int} {r : Option Book}
    (hs : HashTable.search h id = some r) :
    0 ≤ HashTable.hashFunction id ∧
      (HashTable.hashFunction id).toNat < h.table.length := by
  by_cases hc : 0 ≤ HashTable.hashFunction id ∧
      (HashTable.hashFunction id).toNat < h.table.length
  · exact hc
  · simp only [HashTable.search] at hs
    rw [if_neg hc] at hs
    exact absurd hs (by simp)

theorem HashTable.search_some_val {h : HashTable} {id : Int} {r : Option Book}
    (hs : HashTable.search h id = some r) :
    r = (h.table.getD (HashTable.hashFunction id).toNat []).find?
      (fun b => b.id == id) := by
  obtain ⟨h0, hlt⟩ := HashTable.search_some_bounds hs
  rw [HashTable.search_eq_pos h id h0 hlt] at hs
  exact (Option.some_inj.mp hs).symm

theorem HashTable.insert_eq_pos (h : HashTable) (book : Book)
    (h0 : 0 ≤ HashTable.hashFunction book.id)
    (hlt : (HashTable.hashFunction book.id).toNat < h.table.length) :
    HashTable.insert h book =
      some ⟨h.table.set (HashTable.hashFunction book.id).toNat
        (h.table.getD (HashTable.hashFunction book.id).toNat [] ++ [book])⟩ := by
  simp only [HashTable.insert]
  rw [if_pos ⟨h0, hlt⟩]

/-! The reachable-state invariant of the catalog and its consequences. -/

theorem CatalogInv.mem_bucket_iff {m : LibraryManager} (inv : CatalogInv m) {i : Nat}
    (hi : i < 101) (b : Book) :
    b ∈ m.idIndex.table.getD i [] ↔
      b ∈ m.books ∧ (HashTable.hashFunction b.id).toNat = i := by
  have hc := inv.buckets i hi b
  constructor
  · intro hb
    by_contra hcond
    rw [if_neg hcond] at hc
    exact List.count_eq_zero.mp hc hb
  · intro hcond
    rw [if_pos hcond] at hc
    by_contra hb
    rw [List.count_eq_zero.mpr hb] at hc
    exact Nat.zero_ne_one hc

theorem CatalogInv.id_unique {m : LibraryManager} (inv : CatalogInv m) {b x : Book}
    (hb : b ∈ m.books) (hx : x ∈ m.books) (he : x.id = b.id) : x = b :=
  List.inj_on_of_nodup_map inv.ids_nodup hx hb he

theorem CatalogInv.search_present {m : LibraryManager} (inv : CatalogInv m) {b : Book}
    (hb : b ∈ m.books) :
    HashTable.search m.idIndex b.id = some (some b) := by
  obtain ⟨h0, hlt⟩ := inv.hash_ok b hb
  rw [HashTable.search_eq_pos m.idIndex b.id h0 (by rw [inv.table_len]; exact hlt)]
  congr 1
  apply find?_eq_some_unique
  · exact (inv.mem_bucket_iff hlt b).mpr ⟨hb, rfl⟩
  · simp
  · intro x hx hpx
    have hxm := (inv.mem_bucket_iff hlt x).mp hx
    exact inv.id_unique hb hxm.1 (by simpa using hpx)

theorem CatalogInv.search_absent {m : LibraryManager} (inv : CatalogInv m) {id : Int}
    (h0 : 0 ≤ HashTable.hashFunction id) (hall : ∀ b ∈ m.books, b.id ≠ id) :
    HashTable.search m.idIndex id = some none := by
  have hdef : HashTable.hashFunction id = Int.tmod id 101 := rfl
  have h101 := Int.tmod_lt_of_pos id (by norm_num : (0:Int) < 101)
  have hlt : (HashTable.hashFunction id).toNat < 101 := by
    rw [hdef] at h0 ⊢
    omega
  rw [HashTable.search_eq_pos m.idIndex id h0 (by rw [inv.table_len]; exact hlt)]
  congr 1
  rw [List.find?_eq_none]
  intro x hx
  have hxm := (inv.mem_bucket_iff hlt x).mp hx
  simpa using hall x hxm.1

theorem CatalogInv.fresh_of_search_none {m : LibraryManager} (inv : CatalogInv m) {id : Int}
    (hs : HashTable.search m.idIndex id = some none) :
    ∀ b ∈ m.books, b.id ≠ id := by
  intro b hb he
  obtain ⟨h0, hlt⟩ := HashTable.search_some_bounds hs
  have hval := HashTable.search_some_val hs
  have hlt' : (HashTable.hashFunction id).toNat < 101 := by
    rw [← inv.table_len]; exact hlt
  have hbm : b ∈ m.idIndex.table.getD (HashTable.hashFunction id).toNat [] :=
    (inv.mem_bucket_iff hlt' b).mpr ⟨hb, by rw [he]⟩
  have hnx := List.find?_eq_none.mp hval.symm b hbm
  simp [he] at hnx

/-! Behaviour of one `addBook` call. -/

theorem LibraryManager.addBook_dup {m : LibraryManager} {id : Int} {b : Book}
    (hs : HashTable.search m.idIndex id = some (some b)) (title author : String) :
    m.addBook id title author = some (m, [.errorDuplicate id]) := by
  simp [LibraryManager.addBook, hs]

theorem LibraryManager.addBook_fresh {m : LibraryManager} {id : Int}
    (hs : HashTable.search m.idIndex id = some none) (title author : String) :
    m.addBook id title author = some
      ({ books := m.books ++ [Book.make id title author],
         idIndex := ⟨m.idIndex.table.set (HashTable.hashFunction id).toNat
           (m.idIndex.table.getD (HashTable.hashFunction id).toNat []
             ++ [Book.make id title author])⟩,
         titleIndex := m.titleIndex.insert (Book.make id title author) },
       [.added title]) := by
  obtain ⟨h0, hlt⟩ := HashTable.search_some_bounds hs
  have hins := HashTable.insert_eq_pos m.idIndex (Book.make id title author) h0 hlt
  simp [LibraryManager.addBook, hs, hins, Book.make_id]

theorem LibraryManager.addBook_none {m : LibraryManager} {id : Int}
    (hs : HashTable.search m.idIndex id = none) (title author : String) :
    m.addBook id title author = none := by
  simp [LibraryManager.addBook, hs]

/-- One successful or rejected `addBook` call preserves the invariant. -/
theorem CatalogInv.preserve {m m' : LibraryManager} {id : Int}
    {title author : String} {ev : List OutputEvent} (inv : CatalogInv m)
    (h : m.addBook id title author = some (m', ev)) : CatalogInv m' := by
  match hs : HashTable.search m.idIndex id with
  | none =>
    rw [LibraryManager.addBook_none hs title author] at h
    exact absurd h (by simp)
  | some (some b) =>
    rw [LibraryManager.addBook_dup hs title author] at h
    simp only [Option.some.injEq, Prod.mk.injEq] at h
    obtain ⟨rfl, -⟩ := h
    exact inv
  | some none =>
    rw [LibraryManager.addBook_fresh hs title author] at h
    simp only [Option.some.injEq, Prod.mk.injEq] at h
    obtain ⟨rfl, -⟩ := h
    obtain ⟨h0, hlt⟩ := HashTable.search_some_bounds hs
    have hfresh := inv.fresh_of_search_none hs
    have hlt101 : (HashTable.hashFunction id).toNat < 101 := by
      rw [← inv.table_len]; exact hlt
    have hnotmem : Book.make id title author ∉ m.books :=
      fun hmem => hfresh (Book.make id title author) hmem rfl
    refine ⟨?_, ?_, ?_, ?_, ?_, ?_, ?_, ?_⟩
    · simpa using inv.table_len
    · intro b hb
      rcases List.mem_append.mp hb with hb' | hb'
      · exact inv.avail b hb'
      · rw [List.mem_singleton.mp hb']
        rfl
    · rw [List.map_append, List.nodup_append]
      refine ⟨inv.ids_nodup, List.nodup_singleton _, ?_⟩
      intro a ha ha'
      simp only [List.map_cons, List.map_nil, List.mem_singleton] at ha'
      obtain ⟨x, hx, hxa⟩ := List.mem_map.mp ha
      exact hfresh x hx (by rw [hxa, ha', Book.make_id])
    · intro b hb
      rcases List.mem_append.mp hb with hb' | hb'
      · exact inv.hash_ok b hb'
      · rw [List.mem_singleton.mp hb']
        exact ⟨h0, hlt101⟩
    · intro j hj b
      by_cases hij : (HashTable.hashFunction id).toNat = j
      · subst hij
        rw [getD_set_self _ _ _ _ hlt, List.count_append]
        by_cases hbn : b = Book.make id title author
        · subst hbn
          rw [inv.buckets _ hlt101 (Book.make id title author),
            if_neg (fun hc => hnotmem hc.1),
            if_pos ⟨List.mem_append_right _ (List.mem_singleton_self _), rfl⟩]
          simp [List.count_cons]
        · rw [inv.buckets _ hlt101 b]
          have hcnt : List.count b [Book.make id title author] = 0 := by
            simp [List.count_cons, hbn]
          rw [hcnt]
          by_cases hc : b ∈ m.books ∧
              (HashTable.hashFunction b.id).toNat = (HashTable.hashFunction id).toNat
          · rw [if_pos hc, if_pos ⟨List.mem_append_left _ hc.1, hc.2⟩]
          · rw [if_neg hc, if_neg ?_]
            intro hc'
            rcases List.mem_append.mp hc'.1 with hbm | hbm
            · exact hc ⟨hbm, hc'.2⟩
            · exact hbn (List.mem_singleton.mp hbm)
      · rw [getD_set_ne _ _ _ _ _ hij, inv.buckets j hj b]
        by_cases hc : b ∈ m.books ∧ (HashTable.hashFunction b.id).toNat = j
        · rw [if_pos hc, if_pos ⟨List.mem_append_left _ hc.1, hc.2⟩]
        · rw [if_neg hc, if_neg ?_]
          intro hc'
          rcases List.mem_append.mp hc'.1 with hbm | hbm
          · exact hc ⟨hbm, hc'.2⟩
          · rw [List.mem_singleton.mp hbm] at hc'
            exact hij hc'.2
    · exact BST.searchTree_insert (Book.make id title author) inv.tree_st
    · intro bk hbk
      by_cases hft : (Book.make id title author).title ∈ m.titleIndex.titles
      · rw [show m.titleIndex.insert (Book.make id title author) = m.titleIndex from
          BST.insert_eq_of_mem _ inv.tree_st hft] at hbk
        rw [List.find?_append, inv.tree_first bk hbk]
        rfl
      · obtain ⟨l1, l2, he, he'⟩ :=
          BST.insert_split (Book.make id title author) (t := m.titleIndex) hft
        have hbk' : bk ∈ l1 ++ Book.make id title author :: l2 := by
          rw [← he']; exact hbk
        have hnone : m.books.find?
            (fun b => b.title == (Book.make id title author).title) = none := by
          rw [List.find?_eq_none]
          intro x hx hpx
          have hxt : x.title = (Book.make id title author).title := by simpa using hpx
          exact hft (hxt ▸ inv.tree_complete x hx)
        rcases List.mem_append.mp hbk' with hbm | hbm
        · have hbm' : bk ∈ m.titleIndex.inorder := by
            rw [he]; exact List.mem_append_left _ hbm
          rw [List.find?_append, inv.tree_first bk hbm']
          rfl
        · rcases List.mem_cons.mp hbm with rfl | hbm'
          · rw [List.find?_append, hnone]
            simp
          · have hbm'' : bk ∈ m.titleIndex.inorder := by
              rw [he]; exact List.mem_append_right _ hbm'
            rw [List.find?_append, inv.tree_first bk hbm'']
            rfl
    · intro b hb
      rcases List.mem_append.mp hb with hb' | hb'
      · exact (BST.mem_titles_insert _ _ _).mpr (Or.inr (inv.tree_complete b hb'))
      · rw [List.mem_singleton.mp hb']
        exact (BST.mem_titles_insert _ _ _).mpr (Or.inl rfl)

/-- The invariant holds for a freshly constructed manager. -/
theorem catalogInv_init : CatalogInv LibraryManager.init := by
  refine ⟨?_, ?_, ?_, ?_, ?_, ?_, ?_, ?_⟩
  · simp [LibraryManager.init]
  · intro b hb
    exact absurd hb (by simp [LibraryManager.init])
  · simp [LibraryManager.init]
  · intro b hb
    exact absurd hb (by simp [LibraryManager.init])
  · intro j hj b
    have hrep : (LibraryManager.init.idIndex.table.getD j []) = [] :=
      getD_replicate 101 j []
    rw [hrep]
    simp [LibraryManager.init]
  · exact trivial
  · intro bk hbk
    exact absurd hbk (by simp [LibraryManager.init, BST.inorder])
  · intro b hb
    exact absurd hb (by simp [LibraryManager.init])

/-- The invariant holds after any sequence of `addBook` calls. -/
theorem catalogInv_runAddsFrom :
    ∀ (ops : List (Int × String × String)) {m m' : LibraryManager},
      CatalogInv m → runAddsFrom m ops = some m' → CatalogInv m'
  | [], m, m', inv, h => by
    simp only [runAddsFrom, Option.some.injEq] at h
    exact h ▸ inv
  | (id, t, a) :: rest, m, m', inv, h => by
    simp only [runAddsFrom] at h
    match hab : m.addBook id t a with
    | none =>
      rw [hab] at h
      exact absurd h (by simp)
    | some (m1, ev) =>
      rw [hab] at h
      exact catalogInv_runAddsFrom rest (CatalogInv.preserve inv hab) h

/-- The invariant holds in every state reachable from a fresh manager. -/
theorem catalogInv_runAdds {ops : List (Int × String × String)}
    {m : LibraryManager} (h : runAdds ops = some m) : CatalogInv m :=
  catalogInv_runAddsFrom ops catalogInv_init h

/-! Remaining supporting lemmas for the claims. -/

theorem tmod_neg_of_neg (key : Int) (hk : key < 0) (hnz : Int.tmod key 101 ≠ 0) :
    Int.tmod key 101 < 0 := by
  cases key with
  | ofNat n => exact absurd hk (not_lt.mpr (Int.ofNat_nonneg n))
  | negSucc n =>
    have hdef : Int.tmod (Int.negSucc n) 101 = -Int.ofNat ((n + 1) % 101) := rfl
    rw [hdef] at hnz ⊢
    have hk0 : (n + 1) % 101 ≠ 0 := fun h0 => hnz (by rw [h0]; rfl)
    exact neg_lt_zero.mpr (Int.ofNat_pos.mpr (Nat.pos_of_ne_zero hk0))

theorem CatalogInv.title_mem_iff {m : LibraryManager} (inv : CatalogInv m)
    (s : String) :
    s ∈ m.titleIndex.titles ↔ s ∈ m.books.map (fun b => b.title) := by
  constructor
  · intro hs
    obtain ⟨bk, hbk, rfl⟩ := List.mem_map.mp hs
    exact List.mem_map_of_mem _ (List.mem_of_find?_eq_some (inv.tree_first bk hbk))
  · intro hs
    obtain ⟨b, hb, rfl⟩ := List.mem_map.mp hs
    exact inv.tree_complete b hb

theorem CatalogInv.titles_nodup {m : LibraryManager} (inv : CatalogInv m) :
    m.titleIndex.titles.Nodup :=
  (BST.pairwise_titles inv.tree_st).imp (fun h => strLt_ne h)

/-- C1: in every reachable catalog state, a second `addBook` with the key of a
book already present in the owned collection prints the duplicate-key error
and performs no mutation whatsoever: the returned state is the input state
(same owned collection, same exact index, same ordered index, same record
count) and no new record is created. -/
theorem addBook_duplicate_rejected (ops : List (Int × String × String))
    (m : LibraryManager) (b : Book) (h : runAdds ops = some m)
    (hb : b ∈ m.books) (title author : String) :
    m.addBook b.id title author = some (m, [.errorDuplicate b.id]) :=
  LibraryManager.addBook_dup ((catalogInv_runAdds h).search_present hb) title author

theorem addBook_duplicate_rejected_witness :
    LibraryManager.addBook sampleCatalog 1001 "Other" "Q" =
      some (sampleCatalog, [OutputEvent.errorDuplicate 1001]) :=
  addBook_duplicate_rejected sampleOps sampleCatalog (Book.make 1001 "Zed" "A")
    (by rfl) (by decide) "Other" "Q"

/-- C3: after every sequence of `addBook` calls, `listAllSortedByTitle` yields
the records in non-decreasing (in fact strictly increasing) lexicographic
title order, and its length equals the number of distinct titles among the
successfully added records. -/
theorem listAll_sorted_distinct (ops : List (Int × String × String))
    (m : LibraryManager) (h : runAdds ops = some m) :
    m.listAllSortedByTitle.Pairwise
      (fun x y => strLt x.title y.title ∨ x.title = y.title) ∧
    m.listAllSortedByTitle.length =
      (m.books.map (fun b => b.title)).dedup.length := by
  have inv := catalogInv_runAdds h
  have hpt : m.titleIndex.titles.Pairwise strLt := BST.pairwise_titles inv.tree_st
  constructor
  · have hpt' := hpt
    simp only [BST.titles] at hpt'
    exact (List.pairwise_map.mp hpt').imp (fun h => Or.inl h)
  · have hperm : m.titleIndex.titles.Perm (m.books.map (fun b => b.title)).dedup :=
      List.perm_of_nodup_nodup_toFinset_eq inv.titles_nodup (List.nodup_dedup _)
        (by
          ext s
          simp only [List.mem_toFinset, List.mem_dedup]
          exact inv.title_mem_iff s)
    have hlen : m.titleIndex.titles.length = m.titleIndex.inorder.length := by
      simp [BST.titles]
    rw [show m.listAllSortedByTitle = m.titleIndex.inorder from rfl, ← hlen]
    exact hperm.length_eq

theorem listAll_sorted_distinct_witness :
    sampleCatalog.listAllSortedByTitle.Pairwise
      (fun x y => strLt x.title y.title ∨ x.title = y.title) ∧
    sampleCatalog.listAllSortedByTitle.length =
      (sampleCatalog.books.map (fun b => b.title)).dedup.length :=
  listAll_sorted_distinct sampleOps sampleCatalog (by rfl)

/-- C4 (counterexample to the claim as stated): on the freshly constructed
catalog the key `-2` was never successfully added, yet `findByKey (-2)` does
not return the absent result: the code computes bucket index `-2` and reads
out of bounds (modelled as `none`). -/
theorem findByKey_never_added_cex :
    ¬ (LibraryManager.init.findByKey (-2) = some none) := by decide

/-- C4 (amended): in every reachable state, every owned record is found by
`findByKey` at its key with exactly the fields passed at creation and
availability true; and every key that was never successfully added and whose
hash index is in bounds (in particular every such key `≥ 0`) yields the
absent result. -/
theorem findByKey_exact_lookup (ops : List (Int × String × String))
    (m : LibraryManager) (h : runAdds ops = some m) :
    (∀ b ∈ m.books, m.findByKey b.id = some (some b) ∧ b.isAvailable = true) ∧
    (∀ id : Int, 0 ≤ HashTable.hashFunction id →
      (∀ b ∈ m.books, b.id ≠ id) → m.findByKey id = some none) := by
  have inv := catalogInv_runAdds h
  refine ⟨fun b hb => ⟨?_, inv.avail b hb⟩, fun id h0 hall => ?_⟩
  · exact inv.search_present hb
  · exact inv.search_absent h0 hall

theorem findByKey_exact_lookup_witness :
    (sampleCatalog.findByKey (Book.make 1002 "Abe" "B").id =
        some (some (Book.make 1002 "Abe" "B")) ∧
      (Book.make 1002 "Abe" "B").isAvailable = true) ∧
    sampleCatalog.findByKey 9999 = some none :=
  ⟨(findByKey_exact_lookup sampleOps sampleCatalog (by rfl)).1
      (Book.make 1002 "Abe" "B") (by decide),
   (findByKey_exact_lookup sampleOps sampleCatalog (by rfl)).2 9999
      (by decide) (by decide)⟩

/-- C5: after every sequence of operations the exact index has its 101
buckets, and every record in the owned collection appears exactly once in the
bucket numbered by its hashed key and zero times in every other bucket. -/
theorem bucket_exactly_once (ops : List (Int × String × String))
    (m : LibraryManager) (h : runAdds ops = some m) :
    m.idIndex.table.length = 101 ∧
    ∀ b ∈ m.books, 0 ≤ HashTable.hashFunction b.id ∧
      ∀ i < 101, (m.idIndex.table.getD i []).count b =
        if i = (HashTable.hashFunction b.id).toNat then 1 else 0 := by
  have inv := catalogInv_runAdds h
  refine ⟨inv.table_len, fun b hb => ⟨(inv.hash_ok b hb).1, fun i hi => ?_⟩⟩
  rw [inv.buckets i hi b]
  by_cases hti : i = (HashTable.hashFunction b.id).toNat
  · rw [if_pos hti, if_pos ⟨hb, hti.symm⟩]
  · rw [if_neg hti, if_neg (fun hc => hti hc.2.symm)]

theorem bucket_exactly_once_witness :
    (sampleCatalog.idIndex.table.getD 92 []).count (Book.make 1001 "Zed" "A") = 1 :=
  ((bucket_exactly_once sampleOps sampleCatalog (by rfl)).2
    (Book.make 1001 "Zed" "A") (by decide)).2 92 (by decide)

/-- C6: in every reachable state, a record whose title is not shadowed (it is
the first record in insertion order bearing its title) is returned by both
`findByKey` at its key and `findByTitle` at its title, with identical field
values. -/
theorem round_trip (ops : List (Int × String × String)) (m : LibraryManager)
    (b : Book) (h : runAdds ops = some m) (hb : b ∈ m.books)
    (hfirst : m.books.find? (fun x => x.title == b.title) = some b) :
    m.findByKey b.id = some (some b) ∧ m.findByTitle b.title = some b := by
  have inv := catalogInv_runAdds h
  refine ⟨inv.search_present hb, ?_⟩
  have hm : b.title ∈ m.titleIndex.titles := inv.tree_complete b hb
  obtain ⟨bk, hbk⟩ := BST.search_some_of_mem inv.tree_st hm
  obtain ⟨hbkin, hbkt⟩ := BST.search_some hbk
  have hfk := inv.tree_first bk hbkin
  rw [hbkt] at hfk
  rw [hfirst] at hfk
  have hb2 : b = bk := Option.some_inj.mp hfk
  show BST.searchRecursive m.titleIndex b.title = some b
  rw [hbk, ← hb2]

theorem round_trip_witness :
    sampleCatalog.findByKey (Book.make 1003 "Mid" "C").id =
        some (some (Book.make 1003 "Mid" "C")) ∧
      sampleCatalog.findByTitle (Book.make 1003 "Mid" "C").title =
        some (Book.make 1003 "Mid" "C") :=
  round_trip sampleOps sampleCatalog (Book.make 1003 "Mid" "C") (by rfl)
    (by decide) (by decide)

/-- C7 (counterexample to the claim as stated): on a freshly constructed
catalog, `findByKey (-1)` does not return the absent result: the code
computes bucket index `-1` and reads out of bounds (modelled as `none`). -/
theorem empty_catalog_cex :
    ¬ (LibraryManager.init.findByKey (-1) = some none) := by decide

/-- C7 (amended): on a freshly constructed catalog `listAllSortedByTitle`
yields the empty sequence, `findByTitle` returns absent for every title, and
`findByKey` returns absent for every key whose hash index is in bounds (in
particular every key `≥ 0`). -/
theorem empty_catalog_behaviour :
    LibraryManager.init.listAllSortedByTitle = [] ∧
    (∀ id : Int, 0 ≤ HashTable.hashFunction id →
      LibraryManager.init.findByKey id = some none) ∧
    (∀ title : String, LibraryManager.init.findByTitle title = none) := by
  refine ⟨rfl, ?_, fun t => rfl⟩
  intro id h0
  have hdef : HashTable.hashFunction id = Int.tmod id 101 := rfl
  have h101 := Int.tmod_lt_of_pos id (by norm_num : (0:Int) < 101)
  have hlt : (HashTable.hashFunction id).toNat < 101 := by
    rw [hdef] at h0 ⊢
    omega
  have hs := HashTable.search_eq_pos LibraryManager.init.idIndex id h0
    (by simpa [LibraryManager.init] using hlt)
  rw [show LibraryManager.init.findByKey id =
    HashTable.search LibraryManager.init.idIndex id from rfl, hs]
  rw [show LibraryManager.init.idIndex.table = List.replicate 101 ([] : List Book)
    from rfl, getD_replicate]
  rfl

theorem empty_catalog_behaviour_witness :
    LibraryManager.init.listAllSortedByTitle = [] ∧
    LibraryManager.init.findByKey 3 = some none ∧
    LibraryManager.init.findByTitle "A" = none :=
  ⟨empty_catalog_behaviour.1, empty_catalog_behaviour.2.1 3 (by decide),
   empty_catalog_behaviour.2.2 "A"⟩

theorem HashTable.insert_neg (h : HashTable) (book : Book)
    (h0 : HashTable.hashFunction book.id < 0) : HashTable.insert h book = none := by
  simp only [HashTable.insert]
  exact if_neg (fun hc => absurd hc.1 (not_le.mpr h0))

/-- C2: from any reachable state, adding two books with distinct fresh keys and
the same fresh title succeeds twice; afterwards both are found by key, the
title search returns the first-inserted record only, and the sorted listing
contains exactly one entry with that title. -/
theorem duplicate_title_shadowing (ops : List (Int × String × String))
    (m : LibraryManager) (h : runAdds ops = some m) (k1 k2 : Int)
    (t a1 a2 : String) (hk : k1 ≠ k2)
    (h1 : m.findByKey k1 = some none) (h2 : m.findByKey k2 = some none)
    (ht : m.findByTitle t = none) :
    ∃ m1 m2,
      m.addBook k1 t a1 = some (m1, [.added t]) ∧
      m1.addBook k2 t a2 = some (m2, [.added t]) ∧
      m2.findByKey k1 = some (some (Book.make k1 t a1)) ∧
      m2.findByKey k2 = some (some (Book.make k2 t a2)) ∧
      m2.findByTitle t = some (Book.make k1 t a1) ∧
      m2.listAllSortedByTitle.countP (fun b => b.title == t) = 1 := by
  have inv := catalogInv_runAdds h
  have hs1 : HashTable.search m.idIndex k1 = some none := h1
  have hs2 : HashTable.search m.idIndex k2 = some none := h2
  have ht' : BST.searchRecursive m.titleIndex t = none := ht
  have htm : t ∉ m.titleIndex.titles := by
    intro hmem
    obtain ⟨bk, hbk⟩ := BST.search_some_of_mem inv.tree_st hmem
    rw [ht'] at hbk
    exact absurd hbk (by simp)
  have hadd1 := LibraryManager.addBook_fresh hs1 t a1
  obtain ⟨m1, hm1books, hm1tree, hadd1'⟩ : ∃ m1,
      m1.books = m.books ++ [Book.make k1 t a1] ∧
      m1.titleIndex = m.titleIndex.insert (Book.make k1 t a1) ∧
      m.addBook k1 t a1 = some (m1, [.added t]) := ⟨_, rfl, rfl, hadd1⟩
  have inv1 : CatalogInv m1 := CatalogInv.preserve inv hadd1'
  have hfresh2 := inv.fresh_of_search_none hs2
  have h02 : 0 ≤ HashTable.hashFunction k2 := (HashTable.search_some_bounds hs2).1
  have hfresh2' : ∀ b ∈ m1.books, b.id ≠ k2 := by
    intro b hb
    rw [hm1books] at hb
    rcases List.mem_append.mp hb with hb' | hb'
    · exact hfresh2 b hb'
    · rw [List.mem_singleton.mp hb', Book.make_id]
      exact hk
  have hs2' : HashTable.search m1.idIndex k2 = some none :=
    inv1.search_absent h02 hfresh2'
  have hadd2 := LibraryManager.addBook_fresh hs2' t a2
  obtain ⟨m2, hm2books, hm2tree, hadd2'⟩ : ∃ m2,
      m2.books = m1.books ++ [Book.make k2 t a2] ∧
      m2.titleIndex = m1.titleIndex.insert (Book.make k2 t a2) ∧
      m1.addBook k2 t a2 = some (m2, [.added t]) := ⟨_, rfl, rfl, hadd2⟩
  have inv2 : CatalogInv m2 := CatalogInv.preserve inv1 hadd2'
  have hmem1 : Book.make k1 t a1 ∈ m2.books := by
    rw [hm2books, hm1books]
    exact List.mem_append_left _ (List.mem_append_right _ (List.mem_singleton_self _))
  have hmem2 : Book.make k2 t a2 ∈ m2.books := by
    rw [hm2books]
    exact List.mem_append_right _ (List.mem_singleton_self _)
  have htm1 : (Book.make k1 t a1).title ∉ m.titleIndex.titles := htm
  have st1 : (m.titleIndex.insert (Book.make k1 t a1)).SearchTree :=
    BST.searchTree_insert _ inv.tree_st
  have hmemt : t ∈ (m.titleIndex.insert (Book.make k1 t a1)).titles :=
    (BST.mem_titles_insert _ _ _).mpr (Or.inl rfl)
  have htree2 : m2.titleIndex = m.titleIndex.insert (Book.make k1 t a1) := by
    rw [hm2tree, hm1tree]
    exact BST.insert_eq_of_mem _ st1 hmemt
  obtain ⟨l1, l2, he, he'⟩ :=
    BST.insert_split (Book.make k1 t a1) (t := m.titleIndex) htm1
  have hsearch2 : BST.searchRecursive m2.titleIndex t = some (Book.make k1 t a1) := by
    rw [htree2]
    obtain ⟨bk, hbk⟩ := BST.search_some_of_mem st1 hmemt
    obtain ⟨hbkin, hbkt⟩ := BST.search_some hbk
    have hbk1 : bk = Book.make k1 t a1 := by
      have hbkin' : bk ∈ l1 ++ Book.make k1 t a1 :: l2 := by
        rw [← he']
        exact hbkin
      rcases List.mem_append.mp hbkin' with hbm | hbm
      · exfalso
        have hbkin2 : bk ∈ m.titleIndex.inorder := by
          rw [he]
          exact List.mem_append_left _ hbm
        exact htm (hbkt ▸ List.mem_map_of_mem _ hbkin2)
      · rcases List.mem_cons.mp hbm with hbe | hbm'
        · exact hbe
        · exfalso
          have hbkin2 : bk ∈ m.titleIndex.inorder := by
            rw [he]
            exact List.mem_append_right _ hbm'
          exact htm (hbkt ▸ List.mem_map_of_mem _ hbkin2)
    rw [hbk1] at hbk
    exact hbk
  have hcount : m2.listAllSortedByTitle.countP (fun b => b.title == t) = 1 := by
    have hlist : m2.listAllSortedByTitle = l1 ++ Book.make k1 t a1 :: l2 := by
      show m2.titleIndex.inorder = _
      rw [htree2]
      exact he'
    rw [hlist, List.countP_append, List.countP_cons]
    have hz1 : l1.countP (fun b => b.title == t) = 0 := by
      rw [List.countP_eq_zero]
      intro x hx
      have hxin : x ∈ m.titleIndex.inorder := by
        rw [he]
        exact List.mem_append_left _ hx
      simp only [beq_iff_eq]
      intro hxe
      exact htm (hxe ▸ List.mem_map_of_mem _ hxin)
    have hz2 : l2.countP (fun b => b.title == t) = 0 := by
      rw [List.countP_eq_zero]
      intro x hx
      have hxin : x ∈ m.titleIndex.inorder := by
        rw [he]
        exact List.mem_append_right _ hx
      simp only [beq_iff_eq]
      intro hxe
      exact htm (hxe ▸ List.mem_map_of_mem _ hxin)
    rw [hz1, hz2, if_pos (by simp [Book.make_title])]
  exact ⟨m1, m2, hadd1', hadd2', inv2.search_present hmem1,
    inv2.search_present hmem2, hsearch2, hcount⟩

theorem duplicate_title_shadowing_witness :
    ∃ m1 m2,
      LibraryManager.addBook LibraryManager.init 1 "A" "x" =
        some (m1, [OutputEvent.added "A"]) ∧
      m1.addBook 2 "A" "y" = some (m2, [OutputEvent.added "A"]) ∧
      m2.findByKey 1 = some (some (Book.make 1 "A" "x")) ∧
      m2.findByKey 2 = some (some (Book.make 2 "A" "y")) ∧
      m2.findByTitle "A" = some (Book.make 1 "A" "x") ∧
      m2.listAllSortedByTitle.countP (fun b => b.title == "A") = 1 :=
  duplicate_title_shadowing [] LibraryManager.init rfl 1 2 "A" "x" "y"
    (by decide) (by decide) (by decide) (by decide)

/-- C8 (counterexample to the claim as stated): the core operation `addBook`
itself produces user-facing output: on a fresh catalog it prints the "Added"
message, so output is not done exclusively by an external collaborator. -/
theorem core_output_cex :
    (LibraryManager.addBook LibraryManager.init 1 "T" "A").map Prod.snd =
      some [OutputEvent.added "T"] ∧
    ([OutputEvent.added "T"] : List OutputEvent) ≠ [] := ⟨by decide, by decide⟩

/-- C8 (amended): the core operations themselves convert every outcome into a
user-facing message: every defined call of `addBook`, `searchById`,
`searchByTitle` and `showAllBooks` emits at least one output event. -/
theorem operations_emit_output :
    (∀ (m : LibraryManager) (id : Int) (title author : String)
        (p : LibraryManager × List OutputEvent),
      m.addBook id title author = some p → p.2 ≠ []) ∧
    (∀ (m : LibraryManager) (id : Int) (p : LibraryManager × List OutputEvent),
      m.searchById id = some p → p.2 ≠ []) ∧
    (∀ (m : LibraryManager) (title : String), (m.searchByTitle title).2 ≠ []) ∧
    (∀ m : LibraryManager, m.showAllBooks.2 ≠ []) := by
  refine ⟨?_, ?_, ?_, ?_⟩
  · intro m id title author p hp
    match hs : HashTable.search m.idIndex id with
    | none =>
      rw [LibraryManager.addBook_none hs title author] at hp
      exact absurd hp (by simp)
    | some (some b) =>
      rw [LibraryManager.addBook_dup hs title author] at hp
      rw [← Option.some_inj.mp hp]
      simp
    | some none =>
      rw [LibraryManager.addBook_fresh hs title author] at hp
      rw [← Option.some_inj.mp hp]
      simp
  · intro m id p hp
    simp only [LibraryManager.searchById] at hp
    match hs : HashTable.search m.idIndex id with
    | none =>
      rw [hs] at hp
      exact absurd hp (by simp)
    | some (some b) =>
      rw [hs] at hp
      rw [← Option.some_inj.mp hp]
      simp [Book.printDetails]
    | some none =>
      rw [hs] at hp
      rw [← Option.some_inj.mp hp]
      simp
  · intro m title
    simp only [LibraryManager.searchByTitle]
    cases hbs : BST.search m.titleIndex title with
    | none => simp
    | some b => simp [Book.printDetails]
  · intro m
    simp [LibraryManager.showAllBooks]

theorem operations_emit_output_witness :
    ((LibraryManager.init, [OutputEvent.notFoundId 7]) :
      LibraryManager × List OutputEvent).2 ≠ [] :=
  operations_emit_output.2.1 LibraryManager.init 7 _ (by decide)

/-- C9 (counterexample to the claim as stated): `-101` is a negative key whose
computed bucket index is `0`, not negative, and the bucket access is in
bounds — `findByKey (-101)` on a fresh catalog cleanly returns absent. -/
theorem hash_negative_key_cex :
    HashTable.hashFunction (-101) = 0 ∧
    LibraryManager.init.findByKey (-101) = some none := ⟨by decide, by decide⟩

/-- C9 (amended): every key `≥ 0` hashes into `[0, 101)`, so the bucket access
is valid; a negative key whose truncated remainder is nonzero hashes to a
negative index, and any access with a negative hash index is out of bounds
(modelled as `none`) for both `insert` and `search` — so `key ≥ 0` is a
sufficient precondition, and negative keys are unsafe unless they are
multiples of 101. -/
theorem hash_index_bounds :
    (∀ key : Int, 0 ≤ key →
      0 ≤ HashTable.hashFunction key ∧ HashTable.hashFunction key < 101) ∧
    (∀ key : Int, key < 0 → Int.tmod key 101 ≠ 0 →
      HashTable.hashFunction key < 0) ∧
    (∀ (h : HashTable) (key : Int), HashTable.hashFunction key < 0 →
      HashTable.search h key = none) ∧
    (∀ (h : HashTable) (book : Book), HashTable.hashFunction book.id < 0 →
      HashTable.insert h book = none) := by
  refine ⟨?_, tmod_neg_of_neg, HashTable.search_neg, HashTable.insert_neg⟩
  intro key hk
  exact ⟨Int.tmod_nonneg _ hk, Int.tmod_lt_of_pos _ (by norm_num)⟩

theorem hash_index_bounds_witness :
    (0 ≤ HashTable.hashFunction 7 ∧ HashTable.hashFunction 7 < 101) ∧
    HashTable.hashFunction (-1) < 0 ∧
    HashTable.search ⟨List.replicate 101 []⟩ (-1) = none ∧
    HashTable.insert ⟨List.replicate 101 []⟩ (Book.make (-1) "T" "A") = none :=
  ⟨hash_index_bounds.1 7 (by decide),
   hash_index_bounds.2.1 (-1) (by decide) (by decide),
   hash_index_bounds.2.2.1 _ (-1) (by decide),
   hash_index_bounds.2.2.2 _ _ (by decide)⟩

/-- C10: the three query operations are read-only: `searchById` (which wraps
`findByKey`), `searchByTitle` (which wraps `findByTitle`) and `showAllBooks`
(which wraps `listAllSortedByTitle`) return the catalog state unchanged —
owned collection, both indexes and every record field included. -/
theorem queries_read_only :
    (∀ (m : LibraryManager) (id : Int) (p : LibraryManager × List OutputEvent),
      m.searchById id = some p → p.1 = m) ∧
    (∀ (m : LibraryManager) (title : String), (m.searchByTitle title).1 = m) ∧
    (∀ m : LibraryManager, m.showAllBooks.1 = m) := by
  refine ⟨?_, ?_, ?_⟩
  · intro m id p hp
    simp only [LibraryManager.searchById] at hp
    match hs : HashTable.search m.idIndex id with
    | none =>
      rw [hs] at hp
      exact absurd hp (by simp)
    | some (some b) =>
      rw [hs] at hp
      rw [← Option.some_inj.mp hp]
    | some none =>
      rw [hs] at hp
      rw [← Option.some_inj.mp hp]
  · intro m title
    simp only [LibraryManager.searchByTitle]
    cases hbs : BST.search m.titleIndex title with
    | none => rfl
    | some b => rfl
  · intro m
    rfl

theorem queries_read_only_witness :
    ((LibraryManager.init, [OutputEvent.notFoundId 9]) :
      LibraryManager × List OutputEvent).1 = LibraryManager.init :=
  queries_read_only.1 LibraryManager.init 9 _ (by decide)
